import Mathlib

namespace Sri

/-!
Verification development for the vite-plugin-sri-gen build-time SRI
post-processor.  The definitions below are a shallow embedding of the
TypeScript source (src/src/internal.ts and the generateBundle handler):
JavaScript objects and Maps become association lists, cheerio elements
become attribute lists, asynchronous resource loading becomes explicit
state passing over a remote-fetch state, and the external SHA-2 digest
primitive (node:crypto, an external library call) is a function parameter.
String primitives are implemented over the character list of a string so
that every definition evaluates by kernel reduction.
-/

/-! ## String primitives over character lists -/

def strStarts (s p : String) : Bool := p.data.isPrefixOf s.data

def strEnds (s p : String) : Bool := p.data.isSuffixOf s.data

def strDrop (s : String) (n : Nat) : String := String.mk (s.data.drop n)

def strLower (s : String) : String := String.mk (s.data.map Char.toLower)

/-- Splitting on a separator character, with JS String.split semantics:
the result is never empty and records empty segments at boundaries. -/
def splitChar (sep : Char) : List Char → List (List Char)
  | [] => [[]]
  | c :: t =>
    match splitChar sep t with
    | [] => [[]]
    | h :: r => if c = sep then [] :: h :: r else (c :: h) :: r

def strSplitSlash (s : String) : List String :=
  (splitChar '/' s.data).map String.mk

/-- Containment of a pattern anywhere in a character list. -/
def chInfix (pat : List Char) : List Char → Bool
  | [] => pat.isPrefixOf ([] : List Char)
  | c :: t => pat.isPrefixOf (c :: t) || chInfix pat t

def strHasInfix (s pat : String) : Bool := chInfix pat.data s.data

/-! ## Association-list helpers (JS objects / Maps)

JS object property assignment and Map.set replace the value of an existing
key in place (keeping its position) and append a fresh key at the end;
lookup returns the value of the (unique) matching key. -/

def alookup {β : Type} : List (String × β) → String → Option β
  | [], _ => none
  | (k, v) :: t, q => if k = q then some v else alookup t q

def aset {β : Type} : List (String × β) → String → β → List (String × β)
  | [], k, v => [(k, v)]
  | (a, b) :: t, k, v => if a = k then (a, v) :: t else (a, b) :: aset t k v

def akeys {β : Type} (m : List (String × β)) : List String := m.map Prod.fst

/-! ## Utility functions (src/src/internal.ts) -/

/-- Embeds isHttpUrl: the regex test for absolute http(s) or
protocol-relative URLs, case-insensitive on the scheme. -/
def isHttpUrl (url : String) : Bool :=
  let t := strLower url
  strStarts t "//" || strStarts t "http://" || strStarts t "https://"

/-- Embeds normalizeBundlePath: strip a protocol-relative or a single
leading-slash path marker (Vite bundle keys are relative). -/
def normalizeBundlePath (p : String) : String :=
  if strStarts p "//" then strDrop p 2
  else if strStarts p "/" then strDrop p 1
  else p

/-- The three supported hash algorithms. -/
inductive HashAlg
  | sha256
  | sha384
  | sha512
deriving DecidableEq

def HashAlg.label : HashAlg → String
  | .sha256 => "sha256"
  | .sha384 => "sha384"
  | .sha512 => "sha512"

/-- Embeds computeIntegrity: the token has the shape
algorithm-base64digest.  The digest itself is node:crypto createHash,
an external library primitive, so it is a function parameter. -/
def computeIntegrity (digest : String → String) (alg : HashAlg) (source : String) : String :=
  alg.label ++ "-" ++ digest source

/-! ## Bundle data model (rollup OutputChunk / OutputAsset) -/

structure ChunkInfo where
  fileName : String
  code : Option String
  isEntry : Bool
  name : Option String
  facadeModuleId : Option String
  moduleIds : List String
  dynamicImports : List String
deriving DecidableEq

structure AssetInfo where
  fileName : String
  source : Option String
deriving DecidableEq

inductive BundleItem
  | chunk (c : ChunkInfo)
  | asset (a : AssetInfo)
  | other
deriving DecidableEq

/-- A bundle is a JS object keyed by output file name, iterated in
insertion order. -/
abbrev Bundle := List (String × BundleItem)

/-- Embeds the payload extraction of loadResource's local branch:
bundleItem.code ?? bundleItem.source ?? null (chunks carry code, assets
carry source; the nullish coalescing keeps an empty string). -/
def payloadOf : BundleItem → Option String
  | .chunk c => c.code
  | .asset a => a.source
  | .other => none

/-- Embeds findBundleItem: exact key match, then suffix match
(key equals the path or ends with "/" + path), then basename match. -/
def findBundleItem (bundle : Bundle) (relPath : String) : Option BundleItem :=
  match alookup bundle relPath with
  | some item => some item
  | none =>
    match (akeys bundle).find? (fun k => k == relPath || strEnds k ("/" ++ relPath)) with
    | some k => alookup bundle k
    | none =>
      match (strSplitSlash relPath).getLast? with
      | none => none
      | some lastSeg =>
        if lastSeg = "" then none
        else
          match (akeys bundle).find? (fun k => k == lastSeg || strEnds k ("/" ++ lastSeg)) with
          | some k => alookup bundle k
          | none => none

/-! ## Resource loading (loadResource)

Remote fetching is asynchronous in the source; we embed it as explicit
state passing.  The state records the byte cache, the in-flight
deduplication map (URL to fetch identifier) and the log of network
fetches actually started.  The network itself is an oracle parameter:
some bytes for a 2xx response, none for a non-ok status (which the
source turns into a thrown error). -/

structure LoadOpts where
  enableCache : Bool
  hasCache : Bool
  hasPending : Bool
  fetchTimeoutMs : Nat

structure RemoteState where
  cache : List (String × String)
  pending : List (String × Nat)
  fetchLog : List String
deriving DecidableEq

/-- Embeds the protocol-relative normalization of the remote branch:
a leading // is resolved against https. -/
def httpNormalize (p : String) : String :=
  if strStarts p "//" then "https:" ++ p else p

/-- Outcome of the synchronous prefix of a remote load, i.e. everything
the source executes before its first await.  JavaScript runs an async
function to completion up to the first await, so this whole block is
atomic with respect to other concurrent loads. -/
inductive RemotePhase1
  | cached (bytes : String)
  | awaitPending (fid : Nat)
  | startFetch (fid : Nat)
  | startDirect (fid : Nat)
deriving DecidableEq

/-- Embeds the deduplicated fetch start of loadResource: with dedupe
enabled, a hit in the pending map awaits the registered promise; a miss
starts the fetch and registers it, with no suspension point between the
check and the registration (doFetch() initiates the network request
synchronously before its first await returns control). -/
def remoteStart (url : String) (opts : LoadOpts) (st : RemoteState) :
    RemotePhase1 × RemoteState :=
  if opts.enableCache && opts.hasPending then
    match alookup st.pending url with
    | some fid => (.awaitPending fid, st)
    | none =>
      let fid := st.fetchLog.length
      (.startFetch fid,
        { st with fetchLog := st.fetchLog ++ [url], pending := aset st.pending url fid })
  else
    let fid := st.fetchLog.length
    (.startDirect fid, { st with fetchLog := st.fetchLog ++ [url] })

/-- Embeds the cache consultation followed by the fetch start: the
synchronous prefix of the remote branch of loadResource. -/
def remotePhase1 (url : String) (opts : LoadOpts) (st : RemoteState) :
    RemotePhase1 × RemoteState :=
  if opts.enableCache && opts.hasCache then
    match alookup st.cache url with
    | some b => (.cached b, st)
    | none => remoteStart url opts st
  else remoteStart url opts st

/-- Embeds the post-await completion: on success the bytes are stored in
the cache when caching is enabled and a cache map was supplied. -/
def remotePhase2 (url : String) (bytes : String) (opts : LoadOpts) (st : RemoteState) :
    RemoteState :=
  if opts.enableCache && opts.hasCache then
    { st with cache := aset st.cache url bytes }
  else st

/-- Embeds loadResource as a whole for a single (non-interleaved) call:
the early falsy-path return, the remote branch (cache, dedupe, fetch)
and the local bundle branch (normalize, findBundleItem, code ?? source).
An error value models the thrown fetch failure. -/
def loadResource (netFetch : String → Option String) (resourcePath : Option String)
    (bundle : Option Bundle) (opts : LoadOpts) (st : RemoteState) :
    Except String (Option String) × RemoteState :=
  match resourcePath with
  | none => (.ok none, st)
  | some rp =>
    if rp = "" then (.ok none, st)
    else if isHttpUrl rp then
      let url := httpNormalize rp
      match remotePhase1 url opts st with
      | (.cached b, st1) => (.ok (some b), st1)
      | (.awaitPending _, st1) =>
        match netFetch url with
        | some bytes => (.ok (some bytes), remotePhase2 url bytes opts st1)
        | none => (.error ("Failed to fetch " ++ url), st1)
      | (.startFetch _, st1) =>
        match netFetch url with
        | some bytes => (.ok (some bytes), remotePhase2 url bytes opts st1)
        | none => (.error ("Failed to fetch " ++ url), st1)
      | (.startDirect _, st1) =>
        match netFetch url with
        | some bytes => (.ok (some bytes), remotePhase2 url bytes opts st1)
        | none => (.error ("Failed to fetch " ++ url), st1)
    else
      match bundle with
      | none => (.ok none, st)
      | some b =>
        let rel := normalizeBundlePath rp
        if rel = "" then (.ok none, st)
        else
          match findBundleItem b rel with
          | none => (.ok none, st)
          | some item => (.ok (payloadOf item), st)

/-! ## Local lookup described strategy-by-strategy

The following definitions restate the spec's description of the local
bundle lookup ("exact key match, suffix match, basename match as last
resort, first non-null result wins") so that it can be compared with the
source-derived findBundleItem. -/

def firstSomeOpt {α : Type} : List (Option α) → Option α
  | [] => none
  | o :: t =>
    match o with
    | some a => some a
    | none => firstSomeOpt t

def exactKeyStrategy (bundle : Bundle) (rel : String) : Option BundleItem :=
  alookup bundle rel

def suffixKeyStrategy (bundle : Bundle) (rel : String) : Option BundleItem :=
  match (akeys bundle).find? (fun k => strEnds k ("/" ++ rel)) with
  | some k => alookup bundle k
  | none => none

def basenameStrategy (bundle : Bundle) (rel : String) : Option BundleItem :=
  match (strSplitSlash rel).getLast? with
  | none => none
  | some lastSeg =>
    if lastSeg = "" then none
    else
      match (akeys bundle).find? (fun k => k == lastSeg || strEnds k ("/" ++ lastSeg)) with
      | some k => alookup bundle k
      | none => none

def findBundleItemSpec (bundle : Bundle) (rel : String) : Option BundleItem :=
  firstSomeOpt
    [exactKeyStrategy bundle rel, suffixKeyStrategy bundle rel, basenameStrategy bundle rel]


/-! ## HTML augmentation (processElement, addSriToHtml, HtmlProcessor)

A cheerio element is embedded as its tag name plus its attribute list
(cheerio lowercases tag names at parse time).  Mutating attribute writes
become functional updates.  cheerio's HTML parsing and serialization are
external collaborators and are not modelled: an HTML document is its
list of elements, and a prepend into head is a prepend onto that list.
Resource loading inside element processing is abstracted to a
deterministic per-build loader function (the cache stores exactly what
the network oracle returns, so concurrent element loads observe the same
values). -/

structure Element where
  name : String
  attribs : List (String × String)
deriving DecidableEq

def attrOf (el : Element) (n : String) : Option String := alookup el.attribs n

/-- JS truthiness of an attribute value: present and nonempty. -/
def truthyAttr (el : Element) (n : String) : Bool :=
  match alookup el.attribs n with
  | some v => v != ""
  | none => false

def setAttr (el : Element) (n v : String) : Element :=
  ⟨el.name, aset el.attribs n v⟩

/-- Embeds getUrlAttrName: script elements use src, every other element
uses href; null for an element without a name. -/
def getUrlAttrName (el : Element) : Option String :=
  if el.name = "" then none
  else if strLower el.name = "script" then some "src" else some "href"

/-- Embeds processElement: skip when an integrity attribute is already
truthy, otherwise read the URL attribute, load the resource, and on a
truthy payload set the freshly computed integrity (and crossorigin when
configured). -/
def processElement (loadRes : String → Option String) (digest : String → String)
    (alg : HashAlg) (crossorigin : Option String) (el : Element) : Element :=
  if truthyAttr el "integrity" then el
  else
    match getUrlAttrName el with
    | none => el
    | some attrName =>
      match alookup el.attribs attrName with
      | none => el
      | some rp =>
        if rp = "" then el
        else
          match loadRes rp with
          | none => el
          | some src =>
            if src = "" then el
            else
              let el1 := setAttr el "integrity" (computeIntegrity digest alg src)
              match crossorigin with
              | some c => setAttr el1 "crossorigin" c
              | none => el1

/-- Embeds the addSriToHtml element selector: script[src],
link[rel=stylesheet][href], link[rel=modulepreload][href], and
link[rel=preload][as=script|style (case-insensitive)][href]. -/
def selectedForSri (el : Element) : Bool :=
  (el.name == "script" && (alookup el.attribs "src").isSome)
  || (el.name == "link" && (alookup el.attribs "href").isSome &&
      (alookup el.attribs "rel" == some "stylesheet"
        || alookup el.attribs "rel" == some "modulepreload"
        || (alookup el.attribs "rel" == some "preload"
            && ((alookup el.attribs "as").map strLower == some "script"
                || (alookup el.attribs "as").map strLower == some "style"))))

/-- Per-element step of addSriToHtml: only selected elements are
processed, all others pass through untouched. -/
def sriStep (loadRes : String → Option String) (digest : String → String)
    (alg : HashAlg) (crossorigin : Option String) (el : Element) : Element :=
  if selectedForSri el then processElement loadRes digest alg crossorigin el else el

/-- Embeds addSriToHtml: every selected element is processed
independently (the source dispatches them in parallel and catches
per-element failures). -/
def addSriToHtml (loadRes : String → Option String) (digest : String → String)
    (alg : HashAlg) (crossorigin : Option String) (doc : List Element) : List Element :=
  doc.map (sriStep loadRes digest alg crossorigin)

/-- Configuration slice of HtmlProcessorConfig used by the HTML passes. -/
structure HtmlCfg where
  algorithm : HashAlg
  crossorigin : Option String
  base : String
  preloadDynamicChunks : Bool
deriving DecidableEq

/-- Models path.posix.join("/", fileName) for relative bundle keys. -/
def pathJoinRoot (f : String) : String :=
  if strStarts f "/" then f else "/" ++ f

/-- Models path.posix.join(base, fileName) for the slash-joining cases
exercised here (no dot-segment normalization). -/
def joinBase (base f : String) : String :=
  if base = "" then f
  else if strEnds base "/" then base ++ f
  else base ++ "/" ++ f

/-- The modulepreload link element built by addPreloadLinkForChunk. -/
def mkPreloadLink (href integ : String) (crossorigin : Option String) : Element :=
  ⟨"link",
    [("rel", "modulepreload"), ("href", href), ("integrity", integ)] ++
      (match crossorigin with
       | some c => [("crossorigin", c)]
       | none => [])⟩

/-- Embeds the duplicate check: a link[rel=modulepreload] with exactly
this href already exists somewhere in the document. -/
def hasPreloadWithHref (doc : List Element) (href : String) : Bool :=
  doc.any (fun el =>
    el.name == "link" && alookup el.attribs "rel" == some "modulepreload"
      && alookup el.attribs "href" == some href)

/-- Embeds addPreloadLinkForChunk: build the href from the base path,
skip when an identical modulepreload link exists, skip (with a warning)
when no truthy integrity token is recorded for the chunk, otherwise
prepend the new link into head. -/
def addPreloadLinkForChunk (cfg : HtmlCfg) (sriMap : List (String × String))
    (doc : List Element) (chunkFile : String) : List Element :=
  let href := joinBase cfg.base chunkFile
  if hasPreloadWithHref doc href then doc
  else
    match alookup sriMap (pathJoinRoot chunkFile) with
    | none => doc
    | some integ =>
      if integ = "" then doc
      else mkPreloadLink href integ cfg.crossorigin :: doc

/-- Embeds addDynamicChunkPreloads: process each dynamic chunk file in
order. -/
def addDynamicChunkPreloads (cfg : HtmlCfg) (sriMap : List (String × String))
    (dynFiles : List String) (doc : List Element) : List Element :=
  dynFiles.foldl (addPreloadLinkForChunk cfg sriMap) doc

/-- Embeds processSingleHtmlFile: SRI injection first, then dynamic
chunk preload injection when enabled and chunks were discovered. -/
def processHtmlDoc (loadRes : String → Option String) (digest : String → String)
    (cfg : HtmlCfg) (sriMap : List (String × String)) (dynFiles : List String)
    (doc : List Element) : List Element :=
  let d1 := addSriToHtml loadRes digest cfg.algorithm cfg.crossorigin doc
  if cfg.preloadDynamicChunks && !dynFiles.isEmpty then
    addDynamicChunkPreloads cfg sriMap dynFiles d1
  else d1

/-! ## Integrity mapping (IntegrityProcessor) and the two-pass pipeline -/

/-- First-some choice on options. -/
def ofirst {α : Type} (a b : Option α) : Option α :=
  match a with
  | some v => some v
  | none => b

/-- Embeds the PROCESSABLE_EXTENSIONS regex: a css, js or mjs extension
at the end of the file name or followed by a query string,
case-insensitive. -/
def processableExt (fileName : String) : Bool :=
  let t := strLower fileName
  strEnds t ".css" || strEnds t ".js" || strEnds t ".mjs"
    || strHasInfix t ".css?" || strHasInfix t ".js?" || strHasInfix t ".mjs?"

/-- The two-pass options of buildIntegrityMappings as used by the
generateBundle handler. -/
structure MappingOptions where
  excludeEntryChunks : Bool
  onlyEntryChunks : Bool
deriving DecidableEq

/-- The configuration-error message produced when both two-pass flags
are set (as asserted by the repository's test suite). -/
def mappingBothFlagsMsg : String :=
  "Invalid integrity mapping options: 'excludeEntryChunks' and 'onlyEntryChunks' cannot both be true."

/-- Modelled from the spec: the implementation of the entry-chunk
filtering switch of IntegrityMapBuilder (the excludeEntryChunks /
onlyEntryChunks options of buildIntegrityMappings) is missing from the
shipped internal.ts — only its caller (the generateBundle handler in the
plugin entry point) and its tests reference it.  Per spec sections 4.3
and 4.5, excludeEntryChunks skips entry chunks (hashing all other
artifacts) and onlyEntryChunks keeps only entry chunks. -/
def passesEntryFilter (opts : MappingOptions) : BundleItem → Bool
  | .chunk c => (!(opts.excludeEntryChunks && c.isEntry)) && (!(opts.onlyEntryChunks && !c.isEntry))
  | _ => !opts.onlyEntryChunks

/-- Embeds processBundleItem: skip non-processable extensions, apply the
entry filter, skip empty or absent payloads (with a warning), and record
pathname (path.posix.join of "/" and the file name) and integrity. -/
def processBundleItem (digest : String → String) (alg : HashAlg) (opts : MappingOptions)
    (fileName : String) (item : BundleItem) : Option (String × String) :=
  if !processableExt fileName then none
  else if !passesEntryFilter opts item then none
  else
    match item with
    | .asset a =>
      match a.source with
      | none => none
      | some s =>
        if s = "" then none
        else some (pathJoinRoot fileName, computeIntegrity digest alg s)
    | .chunk c =>
      match c.code with
      | none => none
      | some s =>
        if s = "" then none
        else some (pathJoinRoot fileName, computeIntegrity digest alg s)
    | .other => none

/-- Embeds buildIntegrityMappings: fail fatally when both two-pass flags
are set (the options validation is modelled from the spec and the test
suite, see passesEntryFilter), otherwise process every bundle entry
independently, assigning each successful result into the mapping
object. -/
def buildIntegrityMappings (digest : String → String) (alg : HashAlg) (bundle : Bundle)
    (opts : MappingOptions) : Except String (List (String × String)) :=
  if opts.excludeEntryChunks && opts.onlyEntryChunks then
    .error mappingBothFlagsMsg
  else
    .ok ((bundle.filterMap (fun e => processBundleItem digest alg opts e.1 e.2)).foldl
      (fun acc pv => aset acc pv.1 pv.2) [])

/-- JS string coercion used by runtimeCode + bundleItem.code. -/
def jsStr (o : Option String) : String :=
  match o with
  | some s => s
  | none => "undefined"

/-- Embeds the runtime injection loop of the generateBundle handler:
every entry chunk has the serialized runtime prepended to its code. -/
def injectItem (rt : String) : BundleItem → BundleItem
  | .chunk c =>
    if c.isEntry then .chunk { c with code := some (rt ++ jsStr c.code) } else .chunk c
  | item => item

def injectRuntimeIntoEntries (rt : String) (bundle : Bundle) : Bundle :=
  bundle.map (fun e => (e.1, injectItem rt e.2))

/-- Embeds the object-spread merge of the two partial maps:
the entries of the first map, then the entries of the second assigned on
top (later spread wins). -/
def mergeMaps (a b : List (String × String)) : List (String × String) :=
  b.foldl (fun acc pv => aset acc pv.1 pv.2) a

/-- Result of the two-pass branch of the generateBundle handler. -/
structure TwoPassResult where
  finalMap : List (String × String)
  injectedBundle : Bundle
  embeddedMap : List (String × String)
deriving DecidableEq

/-- Embeds the two-pass branch of the generateBundle handler
(runtimePatchDynamicLinks enabled): hash non-entry chunks, inject the
runtime (whose serialized source embeds that map; the serialization of
installSriRuntime and JSON.stringify are external, so the produced
prefix string is a function parameter of the embedded map), hash entry
chunks of the mutated bundle, and merge.  The embeddedMap component
records the map handed to the runtime serializer. -/
def runGenerateBundleTwoPass (digest : String → String) (alg : HashAlg)
    (runtimeCodeFor : List (String × String) → String) (bundle : Bundle) :
    Except String TwoPassResult :=
  match buildIntegrityMappings digest alg bundle ⟨true, false⟩ with
  | .error e => .error e
  | .ok nonEntry =>
    let rt := runtimeCodeFor nonEntry
    let bundle2 := injectRuntimeIntoEntries rt bundle
    match buildIntegrityMappings digest alg bundle2 ⟨false, true⟩ with
    | .error e => .error e
    | .ok entryMap => .ok ⟨mergeMaps nonEntry entryMap, bundle2, nonEntry⟩

/-! ## Dynamic import analysis (DynamicImportAnalyzer) -/

/-- Embeds extractChunksFromBundle: the chunk-typed values of the
bundle in insertion order. -/
def extractChunks (bundle : Bundle) : List ChunkInfo :=
  bundle.filterMap (fun e =>
    match e.2 with
    | .chunk c => some c
    | _ => none)

/-- Embeds buildModuleIdMappings: for every chunk register its facade
module id (when truthy), its logical name (when truthy) and every
contained module id, all pointing at the chunk's file name; later
registrations overwrite earlier identical keys (JS Map.set). -/
def buildModuleIdMappings (bundle : Bundle) : List (String × String) :=
  (extractChunks bundle).foldl
    (fun m c =>
      let m1 := match c.facadeModuleId with
        | some f => if f = "" then m else aset m f c.fileName
        | none => m
      let m2 := match c.name with
        | some n => if n = "" then m1 else aset m1 n c.fileName
        | none => m1
      c.moduleIds.foldl (fun acc mid => aset acc mid c.fileName) m2)
    []

/-- The first resolution strategy of resolveDynamicImport: a truthy hit
in the module-id index. -/
def strat1 (idMap : List (String × String)) (dyn : String) : Option String :=
  match alookup idMap dyn with
  | some f => if f = "" then none else some f
  | none => none

/-- Embeds resolveDynamicImport: module-id index lookup (a truthy hit
wins), then direct bundle key lookup for a chunk, then a scan of all
chunks for a matching logical name. -/
def resolveDynamicImport (dyn : String) (idMap : List (String × String))
    (bundle : Bundle) : Option String :=
  match strat1 idMap dyn with
  | some f => some f
  | none =>
    match alookup bundle dyn with
    | some (.chunk c) => some c.fileName
    | _ =>
      match (extractChunks bundle).find? (fun c => c.name == some dyn) with
      | some c => some c.fileName
      | none => none

/-- The warning text logged for an unresolved dynamic import. -/
def dynWarnMsg (dyn : String) : String :=
  "Could not resolve dynamic import \"" ++ dyn ++ "\" to a chunk file"

/-- JS Set.add on an insertion-ordered set. -/
def addToSet (s : List String) (f : String) : List String :=
  if f ∈ s then s else s ++ [f]

/-- One dynamic-import target of analyzeDynamicImports: a truthy
resolved file name goes into the set, anything else logs exactly one
warning. -/
def dynStep (idMap : List (String × String)) (bundle : Bundle)
    (acc : List String × List String) (dyn : String) : List String × List String :=
  match resolveDynamicImport dyn idMap bundle with
  | some f =>
    if f = "" then (acc.1, acc.2 ++ [dynWarnMsg dyn])
    else (addToSet acc.1 f, acc.2)
  | none => (acc.1, acc.2 ++ [dynWarnMsg dyn])

def chunkStep (idMap : List (String × String)) (bundle : Bundle)
    (acc : List String × List String) (c : ChunkInfo) : List String × List String :=
  c.dynamicImports.foldl (dynStep idMap bundle) acc

/-- Embeds analyzeDynamicImports: build the module-id index, then walk
every chunk's declared dynamic-import targets, accumulating the
deduplicated set of resolved file names and the warnings for unresolved
targets.  The function is total: the analysis never throws. -/
def analyzeDynamicImports (bundle : Bundle) : List String × List String :=
  (extractChunks bundle).foldl (chunkStep (buildModuleIdMappings bundle) bundle) ([], [])

/-- A dynamic-import target the analysis treats as unresolved (no
strategy succeeded, or the resolved name is falsy). -/
def isUnresolved (bundle : Bundle) (idMap : List (String × String)) (dyn : String) : Bool :=
  match resolveDynamicImport dyn idMap bundle with
  | some f => f = ""
  | none => true

/-! ## Browser runtime (installSriRuntime)

The serialized runtime runs in an arbitrary page environment.  DOM
globals, prototypes and URL parsing are external, so they appear as an
environment record of throw/presence oracles and a URL-to-pathname
resolver parameter.  Exceptions are modelled with Except; the top-level
guard of installSriRuntime turns any body exception into a normal
return. -/

/-- The crossorigin policy value carried by the runtime options bag:
false disables the attribute, otherwise one of the two CORS tokens. -/
inductive CorsVal
  | corsFalse
  | anonymous
  | useCredentials
deriving DecidableEq

/-- JS truthiness of the cors value (false is falsy, both tokens are
truthy nonempty strings). -/
def CorsVal.isTruthy : CorsVal → Bool
  | .corsFalse => false
  | _ => true

def CorsVal.attrValue : CorsVal → String
  | .corsFalse => ""
  | .anonymous => "anonymous"
  | .useCredentials => "use-credentials"

/-- The runtime options bag; the option wrapper on crossorigin models
own-property presence (hasOwnProperty). -/
structure RuntimeOpts where
  crossorigin : Option CorsVal
deriving DecidableEq

/-- Embeds the cors extraction of installSriRuntime: the options bag's
own crossorigin property when present, the "anonymous" default
otherwise. -/
def corsOf (opts : Option RuntimeOpts) : CorsVal :=
  match opts with
  | some o =>
    match o.crossorigin with
    | some v => v
    | none => .anonymous
  | none => .anonymous

inductive RtKind
  | link
  | script
  | otherEl
deriving DecidableEq

/-- A DOM element as seen by the runtime: its instanceof class, its
attributes, and whether hasAttribute/setAttribute are available. -/
structure RtElement where
  kind : RtKind
  attribs : List (String × String)
  hasMethods : Bool
deriving DecidableEq

/-- Embeds getIntegrityForUrl: falsy URLs yield undefined, URL parsing
(external, new URL against the page location) is the resolver parameter
and yields the pathname queried in the map; any parse failure yields
undefined, never an exception. -/
def getIntegrityForUrl (map : List (String × String))
    (resolvePath : String → Option String) (url : Option String) : Option String :=
  match url with
  | none => none
  | some u =>
    if u = "" then none
    else
      match resolvePath u with
      | none => none
      | some pathname => alookup map pathname

/-- Embeds the attribute-application tail of maybeSetIntegrity: a falsy
URL or token stops, missing element methods stop, integrity is set only
when absent, and crossorigin is set when the policy is truthy and the
attribute absent. -/
def applyIntegrity (map : List (String × String)) (resolvePath : String → Option String)
    (cors : CorsVal) (el : RtElement) (url : Option String) : RtElement :=
  match url with
  | none => el
  | some u =>
    if u = "" then el
    else
      match getIntegrityForUrl map resolvePath (some u) with
      | none => el
      | some integ =>
        if integ = "" then el
        else if !el.hasMethods then el
        else
          let el1 := if (alookup el.attribs "integrity").isSome then el
            else ⟨el.kind, aset el.attribs "integrity" integ, el.hasMethods⟩
          if cors.isTruthy && !(alookup el1.attribs "crossorigin").isSome then
            ⟨el1.kind, aset el1.attribs "crossorigin" cors.attrValue, el1.hasMethods⟩
          else el1

/-- Embeds maybeSetIntegrity: scripts use their src, links their href
after the rel/as eligibility check, every other element is ignored. -/
def maybeSetIntegrity (map : List (String × String)) (resolvePath : String → Option String)
    (cors : CorsVal) (el : RtElement) : RtElement :=
  match el.kind with
  | .otherEl => el
  | .link =>
    let rel := strLower ((alookup el.attribs "rel").getD "")
    let asv := strLower ((alookup el.attribs "as").getD "")
    if rel = "stylesheet" || rel = "modulepreload" ||
        (rel = "preload" && (asv = "script" || asv = "style" || asv = "font")) then
      applyIntegrity map resolvePath cors el (alookup el.attribs "href")
    else el
  | .script => applyIntegrity map resolvePath cors el (alookup el.attribs "src")

/-- Oracles for one wrapInsert target: reading the original method may
throw (unguarded, reaches the top-level catch), the original may be
missing, and each of the two installation techniques may throw
(guarded, with fallback). -/
structure WrapTarget where
  readThrows : Bool
  origPresent : Bool
  defineThrows : Bool
  assignThrows : Bool
deriving DecidableEq

inductive WrapOutcome
  | skippedNoOrig
  | wrappedDefine
  | wrappedAssign
  | skippedBoth
deriving DecidableEq

/-- Embeds wrapInsert: missing originals are skipped; defineProperty is
tried first, plain assignment second, and a failure of both skips the
hook without propagating; only the unguarded property read can throw. -/
def wrapInsert (t : WrapTarget) : Except String WrapOutcome :=
  if t.readThrows then .error "prototype method read threw"
  else if !t.origPresent then .ok .skippedNoOrig
  else if !t.defineThrows then .ok .wrappedDefine
  else if !t.assignThrows then .ok .wrappedAssign
  else .ok .skippedBoth

/-- The hostile-environment oracles of the installation routine. -/
structure RtEnv where
  mapCtorThrows : Bool
  optsAccessThrows : Bool
  setAttrReadThrows : Bool
  setAttrProtoPresent : Bool
  setAttrPatchThrows : Bool
  appendChildTarget : WrapTarget
  insertBeforeTarget : WrapTarget
  appendTarget : WrapTarget
  prependTarget : WrapTarget
deriving DecidableEq

/-- Observable outcome of a completed installation. -/
structure InstallReport where
  map : List (String × String)
  cors : CorsVal
  patchedSetAttr : Bool
  wraps : List WrapOutcome
deriving DecidableEq

/-- Embeds the body of installSriRuntime (everything inside the
top-level try): build the lookup map, extract the cors policy, patch
setAttribute (the read and the assignment are unguarded), then wrap the
four insertion primitives in order. -/
def installBody (sri : List (String × String)) (opts : Option RuntimeOpts)
    (env : RtEnv) : Except String InstallReport := do
  if env.mapCtorThrows then throw "Map construction threw"
  if env.optsAccessThrows then throw "options access threw"
  if env.setAttrReadThrows then throw "setAttribute read threw"
  if env.setAttrProtoPresent && env.setAttrPatchThrows then throw "setAttribute patch threw"
  let w1 ← wrapInsert env.appendChildTarget
  let w2 ← wrapInsert env.insertBeforeTarget
  let w3 ← wrapInsert env.appendTarget
  let w4 ← wrapInsert env.prependTarget
  pure ⟨sri, corsOf opts, env.setAttrProtoPresent, [w1, w2, w3, w4]⟩

/-- Embeds installSriRuntime: the entire body runs inside a top-level
try whose catch swallows every exception, so the function always
returns normally (a swallowed failure installs nothing). -/
def installSriRuntime (sri : List (String × String)) (opts : Option RuntimeOpts)
    (env : RtEnv) : InstallReport :=
  match installBody sri opts env with
  | .ok r => r
  | .error _ => ⟨[], .corsFalse, false, []⟩

/-! ## Theorems -/

theorem strData_append (a b : String) : (a ++ b).data = a.data ++ b.data := rfl

theorem strAppend_ne_empty_left (a b : String) (h : a.data ≠ []) : a ++ b ≠ "" := by
  intro he
  apply h
  have hd : (a ++ b).data = ("" : String).data := congrArg String.data he
  rw [strData_append] at hd
  exact (List.append_eq_nil.mp hd).1

theorem alookup_aset {β : Type} (m : List (String × β)) (k : String) (v : β) (q : String) :
    alookup (aset m k v) q = if k = q then some v else alookup m q := by
  induction m with
  | nil =>
    by_cases h : k = q <;> simp [aset, alookup, h]
  | cons p t ih =>
    obtain ⟨a, b⟩ := p
    by_cases hak : a = k
    · subst hak
      by_cases haq : a = q <;> simp [aset, alookup, haq]
    · by_cases haq : a = q
      · subst haq
        have hka : ¬k = a := fun h => hak h.symm
        simp [aset, alookup, hak, hka]
      · simp [aset, alookup, hak, haq, ih]

theorem alookup_eq_none_iff {β : Type} (m : List (String × β)) (q : String) :
    alookup m q = none ↔ q ∉ akeys m := by
  induction m with
  | nil => simp [alookup, akeys]
  | cons p t ih =>
    obtain ⟨a, b⟩ := p
    by_cases h : a = q
    · subst h
      simp [alookup, akeys]
    · have h2 : ¬q = a := fun he => h he.symm
      simp [alookup, akeys, h, h2]
      simpa [akeys] using ih

theorem computeIntegrity_ne_empty (digest : String → String) (alg : HashAlg) (s : String) :
    computeIntegrity digest alg s ≠ "" := by
  cases alg <;> exact strAppend_ne_empty_left _ _ (by decide)

theorem alookup_isSome_of_mem {β : Type} (m : List (String × β)) (q : String)
    (h : q ∈ akeys m) : ∃ v, alookup m q = some v := by
  cases hv : alookup m q with
  | some v => exact ⟨v, rfl⟩
  | none => exact absurd ((alookup_eq_none_iff m q).mp hv) (not_not_intro h)

theorem find?_or_of_not_mem (l : List String) (r : String) (p : String → Bool)
    (h : r ∉ l) : l.find? (fun k => k == r || p k) = l.find? p := by
  induction l with
  | nil => rfl
  | cons k t ih =>
    have hkr : ¬k = r := fun he => h (he ▸ List.mem_cons_self k t)
    have ht : r ∉ t := fun hm => h (List.mem_cons_of_mem k hm)
    have hb : (k == r) = false := beq_eq_false_iff_ne.mpr hkr
    simp only [List.find?, hb, Bool.false_or, ih ht]

/-- The source-derived findBundleItem coincides with the spec's
ordered-strategy description of the local lookup. -/
theorem findBundleItem_eq_spec (bundle : Bundle) (rel : String) :
    findBundleItem bundle rel = findBundleItemSpec bundle rel := by
  cases h1 : alookup bundle rel with
  | some item =>
    simp [findBundleItem, findBundleItemSpec, firstSomeOpt, exactKeyStrategy, h1]
  | none =>
    have hnm : rel ∉ akeys bundle := (alookup_eq_none_iff bundle rel).mp h1
    have hfind := find?_or_of_not_mem (akeys bundle) rel (fun k => strEnds k ("/" ++ rel)) hnm
    cases h2 : (akeys bundle).find? (fun k => strEnds k ("/" ++ rel)) with
    | some k =>
      obtain ⟨v, hv⟩ := alookup_isSome_of_mem bundle k (List.mem_of_find?_eq_some h2)
      simp [findBundleItem, findBundleItemSpec, firstSomeOpt, exactKeyStrategy,
        suffixKeyStrategy, h1, hfind, h2, hv]
    | none =>
      simp only [findBundleItem, findBundleItemSpec, firstSomeOpt, exactKeyStrategy,
        suffixKeyStrategy, basenameStrategy, h1, hfind, h2]
      cases (strSplitSlash rel).getLast? with
      | none => rfl
      | some lastSeg =>
        by_cases h4 : lastSeg = ""
        · simp [h4]
        · simp only [if_neg h4]
          cases (akeys bundle).find? (fun k => k == lastSeg || strEnds k ("/" ++ lastSeg)) with
          | some k => cases halk : alookup bundle k <;> simp [halk]
          | none => simp

/-- C10: for every bundle, options value and remote state, loadResource
called with an undefined or an empty resource path returns null
immediately and leaves the remote state untouched: no network fetch is
logged, no cache entry is read or written, no pending fetch is
registered and the bundle is never consulted (the result is the same for
every bundle and every network oracle). -/
theorem claim_C10_loadResource_falsy_path (netFetch : String → Option String)
    (bundle : Option Bundle) (opts : LoadOpts) (st : RemoteState) :
    loadResource netFetch none bundle opts st = (Except.ok none, st) ∧
    loadResource netFetch (some "") bundle opts st = (Except.ok none, st) := by
  exact ⟨rfl, by simp [loadResource]⟩

/-- C5: for every non-HTTP resource path, loadResource normalizes the
path (stripping a protocol-relative or leading-slash marker), looks the
artifact up by exact key match, then suffix match, then basename match
(first non-null strategy wins), and returns the artifact's code or
source payload, or null (never an error, and with the remote state left
untouched) when no strategy matches or the normalized path is empty. -/
theorem claim_C5_loadResource_local (netFetch : String → Option String) (p : String)
    (b : Bundle) (opts : LoadOpts) (st : RemoteState) (h : isHttpUrl p = false) :
    loadResource netFetch (some p) (some b) opts st =
      ((if p = "" ∨ normalizeBundlePath p = "" then Except.ok none
        else Except.ok ((findBundleItemSpec b (normalizeBundlePath p)).bind payloadOf)),
        st) := by
  by_cases hp : p = ""
  · simp [loadResource, hp]
  · by_cases hr : normalizeBundlePath p = ""
    · simp [loadResource, hp, h, hr]
    · simp only [loadResource, hp, h, hr, if_neg, Bool.false_eq_true, if_false,
        findBundleItem_eq_spec, ite_false, or_self, or_false, false_or]
      cases findBundleItemSpec b (normalizeBundlePath p) <;> simp [hp, hr]

/-- Witness for C5: a leading-slash path resolved against a one-chunk
bundle takes the local branch and yields the chunk's code. -/
theorem claim_C5_witness :
    isHttpUrl "/assets/app.js" = false ∧
    loadResource (fun _ => none) (some "/assets/app.js")
        (some [("assets/app.js",
          BundleItem.chunk ⟨"assets/app.js", some "console.log(1)", true, none, none, [], []⟩)])
        ⟨true, true, true, 0⟩ ⟨[], [], []⟩ =
      ((if "/assets/app.js" = "" ∨ normalizeBundlePath "/assets/app.js" = "" then Except.ok none
        else Except.ok ((findBundleItemSpec
          [("assets/app.js",
            BundleItem.chunk ⟨"assets/app.js", some "console.log(1)", true, none, none, [], []⟩)]
          (normalizeBundlePath "/assets/app.js")).bind payloadOf)),
        ⟨[], [], []⟩) :=
  ⟨by decide, claim_C5_loadResource_local (fun _ => none) "/assets/app.js" _ _ _ (by decide)⟩

/-- C7: when deduplication is active (caching enabled and a pending map
supplied) and a URL is neither cached nor already in flight, the first
load's synchronous prefix starts exactly one network fetch and registers
it; a second concurrent load for the same URL, running its synchronous
prefix while that fetch is in flight, finds the registered pending fetch
and awaits it without starting another fetch or changing the state, so
the whole interleaving performs exactly one underlying network fetch. -/
theorem claim_C7_remote_fetch_dedupe (url : String) (opts : LoadOpts) (st : RemoteState)
    (hec : opts.enableCache = true) (hp : opts.hasPending = true)
    (hpend : alookup st.pending url = none)
    (hcache : alookup st.cache url = none) :
    ∃ fid st1,
      remotePhase1 url opts st = (RemotePhase1.startFetch fid, st1) ∧
      remotePhase1 url opts st1 = (RemotePhase1.awaitPending fid, st1) ∧
      st1.fetchLog = st.fetchLog ++ [url] := by
  refine ⟨st.fetchLog.length,
    RemoteState.mk st.cache (aset st.pending url st.fetchLog.length) (st.fetchLog ++ [url]),
    ?_, ?_, rfl⟩
  · cases hc : opts.hasCache <;>
      simp [remotePhase1, remoteStart, hec, hp, hpend, hcache, hc]
  · cases hc : opts.hasCache <;>
      simp [remotePhase1, remoteStart, hec, hp, hc, hcache, alookup_aset]

/-- Witness for C7 on a fresh build state and a concrete URL. -/
theorem claim_C7_witness :
    ∃ fid st1,
      remotePhase1 "https://cdn.example.com/lib.js" ⟨true, true, true, 0⟩ ⟨[], [], []⟩ =
        (RemotePhase1.startFetch fid, st1) ∧
      remotePhase1 "https://cdn.example.com/lib.js" ⟨true, true, true, 0⟩ st1 =
        (RemotePhase1.awaitPending fid, st1) ∧
      st1.fetchLog = ([] : List String) ++ ["https://cdn.example.com/lib.js"] :=
  claim_C7_remote_fetch_dedupe "https://cdn.example.com/lib.js" ⟨true, true, true, 0⟩
    ⟨[], [], []⟩ rfl rfl rfl rfl

theorem processElement_of_truthy (loadRes : String → Option String) (digest : String → String)
    (alg : HashAlg) (co : Option String) (el : Element)
    (h : truthyAttr el "integrity" = true) :
    processElement loadRes digest alg co el = el := by
  unfold processElement
  simp [h]

theorem processElement_alookup_ne (loadRes : String → Option String) (digest : String → String)
    (alg : HashAlg) (co : Option String) (el : Element) (q : String)
    (h1 : q ≠ "integrity") (h2 : q ≠ "crossorigin") :
    alookup (processElement loadRes digest alg co el).attribs q = alookup el.attribs q := by
  have h1' : ¬("integrity" = q) := fun he => h1 he.symm
  have h2' : ¬("crossorigin" = q) := fun he => h2 he.symm
  unfold processElement
  repeat' split
  all_goals simp [setAttr, alookup_aset, h1', h2']

theorem processElement_name (loadRes : String → Option String) (digest : String → String)
    (alg : HashAlg) (co : Option String) (el : Element) :
    (processElement loadRes digest alg co el).name = el.name := by
  unfold processElement
  repeat' split
  all_goals simp [setAttr]

theorem processElement_truthy_after (loadRes : String → Option String) (digest : String → String)
    (alg : HashAlg) (co : Option String) (el : Element) :
    processElement loadRes digest alg co el = el ∨
    truthyAttr (processElement loadRes digest alg co el) "integrity" = true := by
  unfold processElement
  repeat' split
  all_goals try (left; rfl)
  all_goals right
  all_goals simp [truthyAttr, setAttr, alookup_aset, bne_iff_ne]
  all_goals exact computeIntegrity_ne_empty _ _ _

theorem processElement_idem (loadRes : String → Option String) (digest : String → String)
    (alg : HashAlg) (co : Option String) (el : Element) :
    processElement loadRes digest alg co (processElement loadRes digest alg co el) =
    processElement loadRes digest alg co el := by
  rcases processElement_truthy_after loadRes digest alg co el with h | h
  · rw [h]
    exact h
  · exact processElement_of_truthy _ _ _ _ _ h

theorem selectedForSri_processElement (loadRes : String → Option String)
    (digest : String → String) (alg : HashAlg) (co : Option String) (el : Element) :
    selectedForSri (processElement loadRes digest alg co el) = selectedForSri el := by
  have hn := processElement_name loadRes digest alg co el
  have hsrc := processElement_alookup_ne loadRes digest alg co el "src" (by decide) (by decide)
  have hhref := processElement_alookup_ne loadRes digest alg co el "href" (by decide) (by decide)
  have hrel := processElement_alookup_ne loadRes digest alg co el "rel" (by decide) (by decide)
  have has := processElement_alookup_ne loadRes digest alg co el "as" (by decide) (by decide)
  simp only [selectedForSri, hn, hsrc, hhref, hrel, has]

theorem sriStep_idem (loadRes : String → Option String) (digest : String → String)
    (alg : HashAlg) (co : Option String) (el : Element) :
    sriStep loadRes digest alg co (sriStep loadRes digest alg co el) =
    sriStep loadRes digest alg co el := by
  by_cases hs : selectedForSri el = true
  · simp [sriStep, hs, selectedForSri_processElement, processElement_idem]
  · simp [sriStep, hs]

theorem listMap_id_of_mem {α : Type} (f : α → α) (l : List α) (h : ∀ x ∈ l, f x = x) :
    l.map f = l := by
  induction l with
  | nil => rfl
  | cons a t ih =>
    simp [h a (List.mem_cons_self a t), ih (fun x hx => h x (List.mem_cons_of_mem a hx))]

theorem addSriToHtml_idem (loadRes : String → Option String) (digest : String → String)
    (alg : HashAlg) (co : Option String) (doc : List Element) :
    addSriToHtml loadRes digest alg co (addSriToHtml loadRes digest alg co doc) =
    addSriToHtml loadRes digest alg co doc := by
  unfold addSriToHtml
  apply listMap_id_of_mem
  intro x hx
  obtain ⟨y, _, rfl⟩ := List.mem_map.mp hx
  exact sriStep_idem loadRes digest alg co y

theorem hasPreload_cons (x : Element) (doc : List Element) (href : String)
    (h : hasPreloadWithHref doc href = true) :
    hasPreloadWithHref (x :: doc) href = true := by
  simp [hasPreloadWithHref, List.any_cons] at h ⊢
  exact Or.inr h

theorem addPreload_id_of_dup (cfg : HtmlCfg) (m : List (String × String))
    (doc : List Element) (f : String)
    (hpd : hasPreloadWithHref doc (joinBase cfg.base f) = true) :
    addPreloadLinkForChunk cfg m doc f = doc := by
  simp [addPreloadLinkForChunk, hpd]

theorem addPreload_id_of_missing (cfg : HtmlCfg) (m : List (String × String))
    (doc : List Element) (f : String)
    (hpd : hasPreloadWithHref doc (joinBase cfg.base f) = false)
    (hlk : alookup m (pathJoinRoot f) = none) :
    addPreloadLinkForChunk cfg m doc f = doc := by
  simp [addPreloadLinkForChunk, hpd, hlk]

theorem addPreload_id_of_empty (cfg : HtmlCfg) (m : List (String × String))
    (doc : List Element) (f : String)
    (hpd : hasPreloadWithHref doc (joinBase cfg.base f) = false)
    (hlk : alookup m (pathJoinRoot f) = some "") :
    addPreloadLinkForChunk cfg m doc f = doc := by
  simp [addPreloadLinkForChunk, hpd, hlk]

theorem addPreload_of_found (cfg : HtmlCfg) (m : List (String × String))
    (doc : List Element) (f : String) (integ : String)
    (hpd : hasPreloadWithHref doc (joinBase cfg.base f) = false)
    (hlk : alookup m (pathJoinRoot f) = some integ) (hi : integ ≠ "") :
    addPreloadLinkForChunk cfg m doc f =
      mkPreloadLink (joinBase cfg.base f) integ cfg.crossorigin :: doc := by
  simp [addPreloadLinkForChunk, hpd, hlk, hi]

theorem hasPreload_addPreload (cfg : HtmlCfg) (m : List (String × String))
    (doc : List Element) (f : String) (href : String)
    (h : hasPreloadWithHref doc href = true) :
    hasPreloadWithHref (addPreloadLinkForChunk cfg m doc f) href = true := by
  cases hpd : hasPreloadWithHref doc (joinBase cfg.base f) with
  | true => rw [addPreload_id_of_dup cfg m doc f hpd]; exact h
  | false =>
    cases hlk : alookup m (pathJoinRoot f) with
    | none => rw [addPreload_id_of_missing cfg m doc f hpd hlk]; exact h
    | some integ =>
      by_cases hi : integ = ""
      · subst hi
        rw [addPreload_id_of_empty cfg m doc f hpd hlk]
        exact h
      · rw [addPreload_of_found cfg m doc f integ hpd hlk hi]
        exact hasPreload_cons _ _ _ h

theorem hasPreload_fold (cfg : HtmlCfg) (m : List (String × String)) (files : List String)
    (doc : List Element) (href : String) (h : hasPreloadWithHref doc href = true) :
    hasPreloadWithHref (addDynamicChunkPreloads cfg m files doc) href = true := by
  induction files generalizing doc with
  | nil => exact h
  | cons g rest ih => exact ih _ (hasPreload_addPreload _ _ _ _ _ h)

theorem hasPreload_mkLink (href integ : String) (co : Option String) (doc : List Element) :
    hasPreloadWithHref (mkPreloadLink href integ co :: doc) href = true := by
  cases co <;> simp [hasPreloadWithHref, List.any_cons, mkPreloadLink, alookup]

theorem preload_covered (cfg : HtmlCfg) (m : List (String × String)) (files : List String)
    (doc : List Element) (f : String) (hf : f ∈ files) :
    hasPreloadWithHref (addDynamicChunkPreloads cfg m files doc) (joinBase cfg.base f) = true ∨
    alookup m (pathJoinRoot f) = none ∨ alookup m (pathJoinRoot f) = some "" := by
  induction files generalizing doc with
  | nil => cases hf
  | cons g rest ih =>
    rcases List.mem_cons.mp hf with rfl | hmem
    · cases hlk : alookup m (pathJoinRoot f) with
      | none => exact Or.inr (Or.inl rfl)
      | some integ =>
        by_cases hi : integ = ""
        · subst hi
          exact Or.inr (Or.inr rfl)
        · left
          have hone : hasPreloadWithHref (addPreloadLinkForChunk cfg m doc f)
              (joinBase cfg.base f) = true := by
            cases hpd : hasPreloadWithHref doc (joinBase cfg.base f) with
            | true => rw [addPreload_id_of_dup cfg m doc f hpd]; exact hpd
            | false =>
              rw [addPreload_of_found cfg m doc f integ hpd hlk hi]
              exact hasPreload_mkLink _ _ _ _
          show hasPreloadWithHref
            (addDynamicChunkPreloads cfg m rest (addPreloadLinkForChunk cfg m doc f))
            (joinBase cfg.base f) = true
          exact hasPreload_fold cfg m rest _ _ hone
    · exact ih (addPreloadLinkForChunk cfg m doc g) hmem

theorem fold_id_of_covered (cfg : HtmlCfg) (m : List (String × String)) (files : List String)
    (doc : List Element)
    (h : ∀ f ∈ files,
      hasPreloadWithHref doc (joinBase cfg.base f) = true ∨
      alookup m (pathJoinRoot f) = none ∨ alookup m (pathJoinRoot f) = some "") :
    addDynamicChunkPreloads cfg m files doc = doc := by
  induction files with
  | nil => rfl
  | cons g rest ih =>
    have hstep : addPreloadLinkForChunk cfg m doc g = doc := by
      rcases h g (List.mem_cons_self g rest) with hp | hn | he
      · exact addPreload_id_of_dup cfg m doc g hp
      · cases hpd : hasPreloadWithHref doc (joinBase cfg.base g) with
        | true => exact addPreload_id_of_dup cfg m doc g hpd
        | false => exact addPreload_id_of_missing cfg m doc g hpd hn
      · cases hpd : hasPreloadWithHref doc (joinBase cfg.base g) with
        | true => exact addPreload_id_of_dup cfg m doc g hpd
        | false => exact addPreload_id_of_empty cfg m doc g hpd he
    show addDynamicChunkPreloads cfg m rest (addPreloadLinkForChunk cfg m doc g) = doc
    rw [hstep]
    exact ih (fun f hf => h f (List.mem_cons_of_mem g hf))

theorem mem_addPreload (cfg : HtmlCfg) (m : List (String × String)) (doc : List Element)
    (f : String) (x : Element) (hx : x ∈ addPreloadLinkForChunk cfg m doc f) :
    x ∈ doc ∨ ∃ href integ, integ ≠ "" ∧ x = mkPreloadLink href integ cfg.crossorigin := by
  cases hpd : hasPreloadWithHref doc (joinBase cfg.base f) with
  | true =>
    rw [addPreload_id_of_dup cfg m doc f hpd] at hx
    exact Or.inl hx
  | false =>
    cases hlk : alookup m (pathJoinRoot f) with
    | none =>
      rw [addPreload_id_of_missing cfg m doc f hpd hlk] at hx
      exact Or.inl hx
    | some integ =>
      by_cases hi : integ = ""
      · subst hi
        rw [addPreload_id_of_empty cfg m doc f hpd hlk] at hx
        exact Or.inl hx
      · rw [addPreload_of_found cfg m doc f integ hpd hlk hi] at hx
        rcases List.mem_cons.mp hx with rfl | hmem
        · exact Or.inr ⟨_, integ, hi, rfl⟩
        · exact Or.inl hmem

theorem mem_fold_preloads (cfg : HtmlCfg) (m : List (String × String)) (files : List String)
    (doc : List Element) (x : Element) (hx : x ∈ addDynamicChunkPreloads cfg m files doc) :
    x ∈ doc ∨ ∃ href integ, integ ≠ "" ∧ x = mkPreloadLink href integ cfg.crossorigin := by
  induction files generalizing doc with
  | nil => exact Or.inl hx
  | cons g rest ih =>
    rcases ih (addPreloadLinkForChunk cfg m doc g) hx with h | h
    · exact mem_addPreload _ _ _ _ _ h
    · exact Or.inr h

theorem sriStep_mkPreloadLink (loadRes : String → Option String) (digest : String → String)
    (alg : HashAlg) (co : Option String) (href integ : String) (coLink : Option String)
    (hi : integ ≠ "") :
    sriStep loadRes digest alg co (mkPreloadLink href integ coLink) =
    mkPreloadLink href integ coLink := by
  have ht : truthyAttr (mkPreloadLink href integ coLink) "integrity" = true := by
    cases coLink <;> simp [truthyAttr, mkPreloadLink, alookup, bne_iff_ne, hi]
  unfold sriStep
  split
  · exact processElement_of_truthy _ _ _ _ _ ht
  · rfl

/-- C2: evaluation of the shipped processElement at the disputed input:
a script element that already carries an integrity attribute is returned
unchanged even though its resource payload is resolvable, so the stale
token is preserved instead of being overwritten with the fresh one
(which differs from it). -/
theorem claim_C2_code_evaluation :
    processElement (fun _ => some "x") (fun s => "D" ++ s) HashAlg.sha256 none
        ⟨"script", [("src", "/a.js"), ("integrity", "stale")]⟩ =
      ⟨"script", [("src", "/a.js"), ("integrity", "stale")]⟩ ∧
    computeIntegrity (fun s => "D" ++ s) HashAlg.sha256 "x" ≠ "stale" :=
  ⟨by decide, by decide⟩

/-- C4: augmenting an already augmented document again with the same
loader, integrity map, dynamic chunk set and configuration changes
nothing: integrity attributes are not recomputed or duplicated (elements
now carry a truthy integrity attribute and are skipped) and no
modulepreload link whose href is already present is added a second
time. -/
theorem claim_C4_augmentation_idempotent (loadRes : String → Option String)
    (digest : String → String) (cfg : HtmlCfg) (m : List (String × String))
    (fs : List String) (doc : List Element) :
    processHtmlDoc loadRes digest cfg m fs (processHtmlDoc loadRes digest cfg m fs doc) =
    processHtmlDoc loadRes digest cfg m fs doc := by
  by_cases hg : (cfg.preloadDynamicChunks && !fs.isEmpty) = true
  · simp only [processHtmlDoc, hg, if_true]
    have hA : addSriToHtml loadRes digest cfg.algorithm cfg.crossorigin
        (addDynamicChunkPreloads cfg m fs
          (addSriToHtml loadRes digest cfg.algorithm cfg.crossorigin doc)) =
        addDynamicChunkPreloads cfg m fs
          (addSriToHtml loadRes digest cfg.algorithm cfg.crossorigin doc) := by
      unfold addSriToHtml
      apply listMap_id_of_mem
      intro x hx
      rcases mem_fold_preloads cfg m fs _ x hx with hmem | ⟨href, integ, hi, rfl⟩
      · obtain ⟨y, _, rfl⟩ := List.mem_map.mp hmem
        exact sriStep_idem loadRes digest cfg.algorithm cfg.crossorigin y
      · exact sriStep_mkPreloadLink loadRes digest cfg.algorithm cfg.crossorigin
          href integ cfg.crossorigin hi
    rw [hA]
    apply fold_id_of_covered
    intro f hf
    exact preload_covered cfg m fs
      (addSriToHtml loadRes digest cfg.algorithm cfg.crossorigin doc) f hf
  · simp only [processHtmlDoc, hg, if_false]
    exact addSriToHtml_idem loadRes digest cfg.algorithm cfg.crossorigin doc

theorem alookup_foldl_aset (l : List (String × String)) (m0 : List (String × String))
    (q : String) (hnd : (l.map Prod.fst).Nodup) :
    alookup (l.foldl (fun acc pv => aset acc pv.1 pv.2) m0) q =
      ofirst (alookup l q) (alookup m0 q) := by
  induction l generalizing m0 with
  | nil => simp [alookup, ofirst]
  | cons p t ih =>
    obtain ⟨k, v⟩ := p
    simp only [List.map_cons, List.nodup_cons] at hnd
    have hrec := ih (aset m0 k v) hnd.2
    rw [List.foldl_cons]
    rw [hrec, alookup_aset]
    by_cases hkq : k = q
    · subst hkq
      have hnone : alookup t k = none :=
        (alookup_eq_none_iff t k).mpr (by simpa [akeys] using hnd.1)
      simp [alookup, hnone, ofirst]
    · simp [alookup, hkq, ofirst]

theorem mem_akeys_aset {β : Type} (m : List (String × β)) (k : String) (v : β) (q : String) :
    q ∈ akeys (aset m k v) ↔ q ∈ akeys m ∨ q = k := by
  induction m with
  | nil => simp [aset, akeys]
  | cons p t ih =>
    obtain ⟨a, b⟩ := p
    by_cases hak : a = k
    · subst hak
      have hset : aset ((a, b) :: t) a v = (a, v) :: t := by simp [aset]
      rw [hset]
      simp only [akeys, List.map_cons, List.mem_cons]
      tauto
    · have hset : aset ((a, b) :: t) k v = (a, b) :: aset t k v := by simp [aset, hak]
      rw [hset]
      simp only [akeys, List.map_cons, List.mem_cons]
      rw [show (q ∈ List.map Prod.fst (aset t k v)) = (q ∈ akeys (aset t k v)) from rfl, ih]
      simp only [akeys]
      tauto

theorem nodup_akeys_aset {β : Type} (m : List (String × β)) (k : String) (v : β)
    (h : (akeys m).Nodup) : (akeys (aset m k v)).Nodup := by
  induction m with
  | nil => simp [aset, akeys]
  | cons p t ih =>
    obtain ⟨a, b⟩ := p
    simp only [akeys, List.map_cons, List.nodup_cons] at h
    by_cases hak : a = k
    · subst hak
      have hset : aset ((a, b) :: t) a v = (a, v) :: t := by simp [aset]
      rw [hset]
      simp only [akeys, List.map_cons, List.nodup_cons]
      exact ⟨h.1, h.2⟩
    · have hset : aset ((a, b) :: t) k v = (a, b) :: aset t k v := by simp [aset, hak]
      rw [hset]
      simp only [akeys, List.map_cons, List.nodup_cons]
      constructor
      · intro hmem
        rcases (mem_akeys_aset t k v a).mp (by simpa [akeys] using hmem) with hm | he
        · exact h.1 (by simpa [akeys] using hm)
        · exact hak he
      · exact ih h.2

theorem nodup_akeys_foldl (l : List (String × String)) (m0 : List (String × String))
    (h : (akeys m0).Nodup) :
    (akeys (l.foldl (fun acc pv => aset acc pv.1 pv.2) m0)).Nodup := by
  induction l generalizing m0 with
  | nil => exact h
  | cons p t ih => exact ih _ (nodup_akeys_aset m0 p.1 p.2 h)

theorem alookup_map_values {β : Type} (g : β → β) (m : List (String × β)) (q : String) :
    alookup (m.map (fun e => (e.1, g e.2))) q = (alookup m q).map g := by
  induction m with
  | nil => rfl
  | cons p t ih =>
    obtain ⟨a, b⟩ := p
    by_cases h : a = q <;> simp [alookup, h, ih]

theorem processBundleItem_key (digest : String → String) (alg : HashAlg)
    (opts : MappingOptions) (k : String) (item : BundleItem) (p v : String)
    (h : processBundleItem digest alg opts k item = some (p, v)) : p = pathJoinRoot k := by
  unfold processBundleItem at h
  repeat' split at h
  all_goals simp at h
  all_goals exact h.1.symm

theorem entries_keys_sublist (digest : String → String) (alg : HashAlg)
    (opts : MappingOptions) (bundle : Bundle) :
    ((bundle.filterMap (fun e => processBundleItem digest alg opts e.1 e.2)).map Prod.fst).Sublist
      (bundle.map (fun e => pathJoinRoot e.1)) := by
  induction bundle with
  | nil => simp
  | cons e t ih =>
    cases hf : processBundleItem digest alg opts e.1 e.2 with
    | none =>
      simp only [List.filterMap_cons, hf, List.map_cons]
      exact ih.cons _
    | some pv =>
      obtain ⟨p, v⟩ := pv
      have hp : p = pathJoinRoot e.1 := processBundleItem_key digest alg opts e.1 e.2 p v hf
      simp only [List.filterMap_cons, hf, List.map_cons, hp]
      exact ih.cons₂ _

theorem alookup_entries_of_mem (digest : String → String) (alg : HashAlg)
    (opts : MappingOptions) (bundle : Bundle)
    (hpaths : (bundle.map (fun e => pathJoinRoot e.1)).Nodup)
    (k : String) (item : BundleItem) (p v : String)
    (hmem : (k, item) ∈ bundle)
    (hpi : processBundleItem digest alg opts k item = some (p, v)) :
    alookup (bundle.filterMap (fun e => processBundleItem digest alg opts e.1 e.2)) p =
      some v := by
  induction bundle with
  | nil => cases hmem
  | cons e t ih =>
    simp only [List.map_cons, List.nodup_cons] at hpaths
    rcases List.mem_cons.mp hmem with rfl | hmem2
    · simp only [List.filterMap_cons, hpi]
      simp [alookup]
    · cases hf : processBundleItem digest alg opts e.1 e.2 with
      | none =>
        simp only [List.filterMap_cons, hf]
        exact ih hpaths.2 hmem2
      | some pv =>
        obtain ⟨p', v'⟩ := pv
        have hp' : p' = pathJoinRoot e.1 := processBundleItem_key digest alg opts e.1 e.2 p' v' hf
        have hpk : p = pathJoinRoot k := processBundleItem_key digest alg opts k item p v hpi
        have hne : p' ≠ p := by
          intro he
          apply hpaths.1
          rw [← hp', he, hpk]
          exact List.mem_map.mpr ⟨(k, item), hmem2, rfl⟩
        simp only [List.filterMap_cons, hf]
        simp only [alookup, if_neg hne]
        exact ih hpaths.2 hmem2

theorem buildIntegrityMappings_ok (digest : String → String) (alg : HashAlg)
    (bundle : Bundle) (opts : MappingOptions)
    (h : (opts.excludeEntryChunks && opts.onlyEntryChunks) = false) :
    buildIntegrityMappings digest alg bundle opts =
      .ok ((bundle.filterMap (fun e => processBundleItem digest alg opts e.1 e.2)).foldl
        (fun acc pv => aset acc pv.1 pv.2) []) := by
  simp [buildIntegrityMappings, h]

theorem alookup_build_of_mem (digest : String → String) (alg : HashAlg)
    (opts : MappingOptions) (bundle : Bundle)
    (hpaths : (bundle.map (fun e => pathJoinRoot e.1)).Nodup)
    (k : String) (item : BundleItem) (p v : String)
    (hmem : (k, item) ∈ bundle)
    (hpi : processBundleItem digest alg opts k item = some (p, v)) :
    alookup ((bundle.filterMap (fun e => processBundleItem digest alg opts e.1 e.2)).foldl
      (fun acc pv => aset acc pv.1 pv.2) []) p = some v := by
  have hnd : ((bundle.filterMap (fun e => processBundleItem digest alg opts e.1 e.2)).map
      Prod.fst).Nodup :=
    (entries_keys_sublist digest alg opts bundle).nodup hpaths
  rw [alookup_foldl_aset _ _ _ hnd]
  rw [alookup_entries_of_mem digest alg opts bundle hpaths k item p v hmem hpi]
  rfl

/-- C6: calling the integrity-map builder with both excludeEntryChunks
and onlyEntryChunks set fails with the fatal configuration error; with
at most one of them set the call never fails for that (or any) reason.
The options validation itself is modelled from the spec and the test
suite since the shipped internal.ts predates the options parameter. -/
theorem claim_C6_mapping_options_guard (digest : String → String) (alg : HashAlg)
    (bundle : Bundle) (opts : MappingOptions) :
    (opts.excludeEntryChunks = true ∧ opts.onlyEntryChunks = true →
      buildIntegrityMappings digest alg bundle opts = .error mappingBothFlagsMsg) ∧
    ((opts.excludeEntryChunks && opts.onlyEntryChunks) = false →
      ∃ m, buildIntegrityMappings digest alg bundle opts = .ok m) := by
  constructor
  · rintro ⟨h1, h2⟩
    simp [buildIntegrityMappings, h1, h2]
  · intro h
    exact ⟨_, buildIntegrityMappings_ok digest alg bundle opts h⟩

/-- Witness for C6: both flags set on a tiny bundle produce exactly the
configuration error; a single flag set succeeds. -/
theorem claim_C6_witness :
    buildIntegrityMappings (fun s => s) HashAlg.sha256
        [("a.js", BundleItem.chunk ⟨"a.js", some "x", true, none, none, [], []⟩)]
        ⟨true, true⟩ = .error mappingBothFlagsMsg ∧
    ∃ m, buildIntegrityMappings (fun s => s) HashAlg.sha256
        [("a.js", BundleItem.chunk ⟨"a.js", some "x", true, none, none, [], []⟩)]
        ⟨true, false⟩ = .ok m :=
  ⟨(claim_C6_mapping_options_guard (fun s => s) HashAlg.sha256 _ ⟨true, true⟩).1 ⟨rfl, rfl⟩,
    (claim_C6_mapping_options_guard (fun s => s) HashAlg.sha256 _ ⟨true, false⟩).2 rfl⟩

/-- C1: in the two-pass pipeline with runtime injection enabled, the
map embedded into the injected runtime is the pre-injection map of the
non-entry artifacts (each non-entry chunk's token is computed over its
original code), the final map records for an entry chunk the token of
its final code, i.e. the serialized runtime prefix concatenated with its
original code, and the final map is exactly the object-spread merge of
the pre-injection non-entry map with the post-injection entry map.  The
entry-chunk filtering of the map builder is modelled from the spec (see
passesEntryFilter). -/
theorem claim_C1_two_pass_integrity (digest : String → String) (alg : HashAlg)
    (runtimeCodeFor : List (String × String) → String) (bundle : Bundle)
    (hpaths : (bundle.map (fun e => pathJoinRoot e.1)).Nodup)
    (ek : String) (ec : ChunkInfo) (hek : (ek, BundleItem.chunk ec) ∈ bundle)
    (heentry : ec.isEntry = true) (hext : processableExt ek = true)
    (ecode : String) (hecode : ec.code = some ecode) (hee : ecode ≠ "")
    (nk : String) (nc : ChunkInfo) (hnk : (nk, BundleItem.chunk nc) ∈ bundle)
    (hnentry : nc.isEntry = false) (hnext : processableExt nk = true)
    (ncode : String) (hncode : nc.code = some ncode) (hne : ncode ≠ "") :
    ∃ res entryMap,
      runGenerateBundleTwoPass digest alg runtimeCodeFor bundle = .ok res ∧
      buildIntegrityMappings digest alg res.injectedBundle ⟨false, true⟩ = .ok entryMap ∧
      res.finalMap = mergeMaps res.embeddedMap entryMap ∧
      alookup res.embeddedMap (pathJoinRoot nk) =
        some (computeIntegrity digest alg ncode) ∧
      alookup res.finalMap (pathJoinRoot ek) =
        some (computeIntegrity digest alg (runtimeCodeFor res.embeddedMap ++ ecode)) := by
  have hb1 := buildIntegrityMappings_ok digest alg bundle ⟨true, false⟩ rfl
  set nonEntry := (bundle.filterMap
    (fun e => processBundleItem digest alg ⟨true, false⟩ e.1 e.2)).foldl
    (fun acc pv => aset acc pv.1 pv.2) [] with hNonEntry
  set rt := runtimeCodeFor nonEntry with hrt
  set bundle2 := injectRuntimeIntoEntries rt bundle with hbundle2
  have hpaths2 : (bundle2.map (fun e => pathJoinRoot e.1)).Nodup := by
    simpa [hbundle2, injectRuntimeIntoEntries, List.map_map, Function.comp] using hpaths
  have hb2 := buildIntegrityMappings_ok digest alg bundle2 ⟨false, true⟩ rfl
  set entryMap := (bundle2.filterMap
    (fun e => processBundleItem digest alg ⟨false, true⟩ e.1 e.2)).foldl
    (fun acc pv => aset acc pv.1 pv.2) [] with hEntryMap
  have hrun : runGenerateBundleTwoPass digest alg runtimeCodeFor bundle =
      .ok ⟨mergeMaps nonEntry entryMap, bundle2, nonEntry⟩ := by
    unfold runGenerateBundleTwoPass
    rw [hb1]
    simp only []
    rw [← hrt, ← hbundle2, hb2]
  refine ⟨⟨mergeMaps nonEntry entryMap, bundle2, nonEntry⟩, entryMap, hrun, hb2, rfl, ?_, ?_⟩
  · -- non-entry token in the embedded map, computed over pre-injection code
    exact alookup_build_of_mem digest alg ⟨true, false⟩ bundle hpaths nk
      (BundleItem.chunk nc) (pathJoinRoot nk) (computeIntegrity digest alg ncode) hnk
      (by simp [processBundleItem, passesEntryFilter, hnext, hnentry, hncode, hne])
  · -- entry token in the final map, computed over the injected code
    have hmem2 : (ek, injectItem rt (BundleItem.chunk ec)) ∈ bundle2 := by
      rw [hbundle2]
      exact List.mem_map.mpr ⟨(ek, BundleItem.chunk ec), hek, rfl⟩
    have hinj : injectItem rt (BundleItem.chunk ec) =
        BundleItem.chunk { ec with code := some (rt ++ ecode) } := by
      simp [injectItem, heentry, hecode, jsStr]
    have hrte : rt ++ ecode ≠ "" := by
      intro he
      apply hee
      have hd : (rt ++ ecode).data = ("" : String).data := congrArg String.data he
      rw [strData_append] at hd
      have := (List.append_eq_nil.mp hd).2
      cases ecode
      simp at this
      simp [this]
    have hlk : alookup entryMap (pathJoinRoot ek) =
        some (computeIntegrity digest alg (rt ++ ecode)) := by
      rw [hEntryMap]
      refine alookup_build_of_mem digest alg ⟨false, true⟩ bundle2 hpaths2 ek
        (injectItem rt (BundleItem.chunk ec)) (pathJoinRoot ek)
        (computeIntegrity digest alg (rt ++ ecode)) hmem2 ?_
      rw [hinj]
      simp [processBundleItem, passesEntryFilter, hext, heentry, hrte]
    have hndE : (entryMap.map Prod.fst).Nodup := by
      have := nodup_akeys_foldl (bundle2.filterMap
        (fun e => processBundleItem digest alg ⟨false, true⟩ e.1 e.2)) [] (by simp [akeys])
      simpa [akeys, hEntryMap] using this
    show alookup (mergeMaps nonEntry entryMap) (pathJoinRoot ek) = _
    unfold mergeMaps
    rw [alookup_foldl_aset _ _ _ hndE, hlk]
    rfl

/-- Witness for C1: a two-chunk bundle (entry main.js, lazy chunk
lazy.js) with a length-tagging digest and a marker runtime prefix. -/
theorem claim_C1_witness :
    ∃ res entryMap,
      runGenerateBundleTwoPass (fun s => toString s.data.length) HashAlg.sha256
          (fun m => "RT(" ++ toString m.length ++ ");")
          [("main.js", BundleItem.chunk ⟨"main.js", some "console.log(1)", true,
              none, none, [], []⟩),
            ("lazy.js", BundleItem.chunk ⟨"lazy.js", some "console.log(2)", false,
              none, none, [], []⟩)] = .ok res ∧
      buildIntegrityMappings (fun s => toString s.data.length) HashAlg.sha256
          res.injectedBundle ⟨false, true⟩ = .ok entryMap ∧
      res.finalMap = mergeMaps res.embeddedMap entryMap ∧
      alookup res.embeddedMap (pathJoinRoot "lazy.js") =
        some (computeIntegrity (fun s => toString s.data.length) HashAlg.sha256
          "console.log(2)") ∧
      alookup res.finalMap (pathJoinRoot "main.js") =
        some (computeIntegrity (fun s => toString s.data.length) HashAlg.sha256
          ((fun m => "RT(" ++ toString m.length ++ ");") res.embeddedMap ++
            "console.log(1)")) :=
  claim_C1_two_pass_integrity (fun s => toString s.data.length) HashAlg.sha256
    (fun m => "RT(" ++ toString m.length ++ ");") _
    (by decide) "main.js" ⟨"main.js", some "console.log(1)", true, none, none, [], []⟩
    (by decide) rfl (by decide) "console.log(1)" rfl (by decide)
    "lazy.js" ⟨"lazy.js", some "console.log(2)", false, none, none, [], []⟩
    (by decide) rfl (by decide) "console.log(2)" rfl (by decide)

theorem alookup_mem {β : Type} (m : List (String × β)) (q : String) (v : β)
    (h : alookup m q = some v) : (q, v) ∈ m := by
  induction m with
  | nil => cases h
  | cons p t ih =>
    obtain ⟨a, b⟩ := p
    by_cases hq : a = q
    · subst hq
      simp [alookup] at h
      subst h
      exact List.mem_cons_self _ _
    · simp [alookup, hq] at h
      exact List.mem_cons_of_mem _ (ih h)

theorem chunk_mem_extract (bundle : Bundle) (k : String) (c : ChunkInfo)
    (h : (k, BundleItem.chunk c) ∈ bundle) : c ∈ extractChunks bundle := by
  unfold extractChunks
  exact List.mem_filterMap.mpr ⟨(k, BundleItem.chunk c), h, rfl⟩

theorem strat1_some_ne (idMap : List (String × String)) (dyn f : String)
    (h : strat1 idMap dyn = some f) : f ≠ "" := by
  unfold strat1 at h
  cases ha : alookup idMap dyn with
  | none => rw [ha] at h; cases h
  | some g =>
    rw [ha] at h
    by_cases hg : g = ""
    · simp [hg] at h
    · simp [hg] at h
      subst h
      exact hg

theorem strat1_some_of (idMap : List (String × String)) (dyn f : String)
    (hl : alookup idMap dyn = some f) (hf : f ≠ "") : strat1 idMap dyn = some f := by
  unfold strat1
  rw [hl]
  simp [hf]

theorem resolve_of_s1 (dyn : String) (idMap : List (String × String)) (bundle : Bundle)
    (f : String) (h : strat1 idMap dyn = some f) :
    resolveDynamicImport dyn idMap bundle = some f := by
  unfold resolveDynamicImport
  rw [h]

theorem resolve_s3 (dyn : String) (idMap : List (String × String)) (bundle : Bundle)
    (h1 : strat1 idMap dyn = none)
    (h2 : ∀ cc, alookup bundle dyn ≠ some (BundleItem.chunk cc)) :
    resolveDynamicImport dyn idMap bundle =
      match (extractChunks bundle).find? (fun c => c.name == some dyn) with
      | some c => some c.fileName
      | none => none := by
  unfold resolveDynamicImport
  rw [h1]
  cases ha : alookup bundle dyn with
  | none => rfl
  | some item =>
    cases item with
    | chunk c => exact absurd ha (h2 c)
    | asset a => rfl
    | other => rfl

theorem mem_addToSet_self (s : List String) (f : String) : f ∈ addToSet s f := by
  by_cases h : f ∈ s <;> simp [addToSet, h]

theorem mem_addToSet_mono (s : List String) (f x : String) (h : x ∈ s) : x ∈ addToSet s f := by
  by_cases hf : f ∈ s <;> simp [addToSet, hf, h]

theorem mem_dynStep_mono (idMap : List (String × String)) (bundle : Bundle)
    (acc : List String × List String) (dyn : String) (x : String) (h : x ∈ acc.1) :
    x ∈ (dynStep idMap bundle acc dyn).1 := by
  unfold dynStep
  repeat' split
  all_goals first
    | exact h
    | exact mem_addToSet_mono _ _ _ h

theorem mem_dynFold_mono (idMap : List (String × String)) (bundle : Bundle)
    (dls : List String) (acc : List String × List String) (x : String) (h : x ∈ acc.1) :
    x ∈ (dls.foldl (dynStep idMap bundle) acc).1 := by
  induction dls generalizing acc with
  | nil => exact h
  | cons d t ih => exact ih _ (mem_dynStep_mono _ _ _ _ _ h)

theorem mem_chunkFold_mono (idMap : List (String × String)) (bundle : Bundle)
    (cs : List ChunkInfo) (acc : List String × List String) (x : String) (h : x ∈ acc.1) :
    x ∈ (cs.foldl (chunkStep idMap bundle) acc).1 := by
  induction cs generalizing acc with
  | nil => exact h
  | cons c t ih => exact ih _ (mem_dynFold_mono _ _ _ _ _ h)

theorem mem_dynFold_of_resolved (idMap : List (String × String)) (bundle : Bundle)
    (dls : List String) (acc : List String × List String) (dyn f : String)
    (hd : dyn ∈ dls) (hr : resolveDynamicImport dyn idMap bundle = some f) (hf : f ≠ "") :
    f ∈ (dls.foldl (dynStep idMap bundle) acc).1 := by
  induction dls generalizing acc with
  | nil => cases hd
  | cons d t ih =>
    rw [List.foldl_cons]
    rcases List.mem_cons.mp hd with rfl | hmem
    · apply mem_dynFold_mono
      show f ∈ (dynStep idMap bundle acc dyn).1
      unfold dynStep
      rw [hr]
      simp [hf, mem_addToSet_self]
    · exact ih _ hmem

theorem mem_chunkFold_of_resolved (idMap : List (String × String)) (bundle : Bundle)
    (cs : List ChunkInfo) (acc : List String × List String) (c : ChunkInfo) (dyn f : String)
    (hc : c ∈ cs) (hd : dyn ∈ c.dynamicImports)
    (hr : resolveDynamicImport dyn idMap bundle = some f) (hf : f ≠ "") :
    f ∈ (cs.foldl (chunkStep idMap bundle) acc).1 := by
  induction cs generalizing acc with
  | nil => cases hc
  | cons c0 t ih =>
    rw [List.foldl_cons]
    rcases List.mem_cons.mp hc with rfl | hmem
    · apply mem_chunkFold_mono
      exact mem_dynFold_of_resolved _ _ _ _ _ _ hd hr hf
    · exact ih _ hmem

theorem dynStep_warn_len (idMap : List (String × String)) (bundle : Bundle)
    (acc : List String × List String) (dyn : String) :
    (dynStep idMap bundle acc dyn).2.length =
      acc.2.length + (if isUnresolved bundle idMap dyn then 1 else 0) := by
  unfold dynStep isUnresolved
  cases hr : resolveDynamicImport dyn idMap bundle with
  | none => simp
  | some f => by_cases hf : f = "" <;> simp [hf]

theorem dynFold_warn_len (idMap : List (String × String)) (bundle : Bundle)
    (dls : List String) (acc : List String × List String) :
    (dls.foldl (dynStep idMap bundle) acc).2.length =
      acc.2.length + (dls.filter (isUnresolved bundle idMap)).length := by
  induction dls generalizing acc with
  | nil => simp
  | cons d t ih =>
    rw [List.foldl_cons, ih, dynStep_warn_len]
    by_cases hu : isUnresolved bundle idMap d = true
    · simp [hu, List.filter_cons]
      try omega
    · simp [hu, List.filter_cons]
      try omega

theorem chunkFold_warn_len (idMap : List (String × String)) (bundle : Bundle)
    (cs : List ChunkInfo) (acc : List String × List String) :
    (cs.foldl (chunkStep idMap bundle) acc).2.length =
      acc.2.length +
        (cs.map (fun c =>
          (c.dynamicImports.filter (isUnresolved bundle idMap)).length)).sum := by
  induction cs generalizing acc with
  | nil => simp
  | cons c t ih =>
    rw [List.foldl_cons, ih]
    rw [show chunkStep idMap bundle acc c =
      c.dynamicImports.foldl (dynStep idMap bundle) acc from rfl]
    rw [dynFold_warn_len]
    simp [List.map_cons, List.sum_cons]
    omega

/-- C3: every dynamic-import target resolvable by any of the three
strategies (truthy module-id index hit, direct bundle key naming a
chunk, or a chunk with a matching logical name) is resolved, and the
resolved chunk's file name lands in the returned set; the analysis is a
total function (it never throws) and logs exactly one warning per
unresolved target occurrence.  File names of real chunks are nonempty
(bundle well-formedness from the data model). -/
theorem claim_C3_dynamic_import_resolution (bundle : Bundle)
    (hwf : ∀ c ∈ extractChunks bundle, c.fileName ≠ "") :
    (∀ c ∈ extractChunks bundle, ∀ dyn ∈ c.dynamicImports,
      ((∃ f, alookup (buildModuleIdMappings bundle) dyn = some f ∧ f ≠ "") ∨
        (∃ cc, alookup bundle dyn = some (BundleItem.chunk cc)) ∨
        (∃ cc, cc ∈ extractChunks bundle ∧ cc.name = some dyn)) →
      ∃ f, resolveDynamicImport dyn (buildModuleIdMappings bundle) bundle = some f ∧
        f ∈ (analyzeDynamicImports bundle).1) ∧
    (analyzeDynamicImports bundle).2.length =
      ((extractChunks bundle).map (fun c =>
        (c.dynamicImports.filter
          (isUnresolved bundle (buildModuleIdMappings bundle))).length)).sum := by
  constructor
  · intro c hc dyn hd hres
    have hmain : ∃ f, resolveDynamicImport dyn (buildModuleIdMappings bundle) bundle = some f ∧
        f ≠ "" := by
      cases h1 : strat1 (buildModuleIdMappings bundle) dyn with
      | some f1 =>
        exact ⟨f1, resolve_of_s1 _ _ _ _ h1, strat1_some_ne _ _ _ h1⟩
      | none =>
        cases h2 : alookup bundle dyn with
        | some item =>
          cases item with
          | chunk cc =>
            refine ⟨cc.fileName, ?_, ?_⟩
            · unfold resolveDynamicImport
              rw [h1, h2]
            · exact hwf cc (chunk_mem_extract bundle dyn cc (alookup_mem _ _ _ h2))
          | asset a =>
            have hs3 := resolve_s3 dyn (buildModuleIdMappings bundle) bundle h1
              (fun cc hcc => by rw [h2] at hcc; cases hcc)
            cases h3 : (extractChunks bundle).find? (fun c => c.name == some dyn) with
            | some cc =>
              refine ⟨cc.fileName, ?_, hwf cc (List.mem_of_find?_eq_some h3)⟩
              rw [hs3, h3]
            | none =>
              exfalso
              rcases hres with ⟨f, hlf, hfne⟩ | ⟨cc, hcc⟩ | ⟨cc, hccm, hccn⟩
              · rw [strat1_some_of _ _ _ hlf hfne] at h1; cases h1
              · rw [h2] at hcc; cases hcc
              · have := List.find?_eq_none.mp h3 cc hccm
                simp [hccn] at this
          | other =>
            have hs3 := resolve_s3 dyn (buildModuleIdMappings bundle) bundle h1
              (fun cc hcc => by rw [h2] at hcc; cases hcc)
            cases h3 : (extractChunks bundle).find? (fun c => c.name == some dyn) with
            | some cc =>
              refine ⟨cc.fileName, ?_, hwf cc (List.mem_of_find?_eq_some h3)⟩
              rw [hs3, h3]
            | none =>
              exfalso
              rcases hres with ⟨f, hlf, hfne⟩ | ⟨cc, hcc⟩ | ⟨cc, hccm, hccn⟩
              · rw [strat1_some_of _ _ _ hlf hfne] at h1; cases h1
              · rw [h2] at hcc; cases hcc
              · have := List.find?_eq_none.mp h3 cc hccm
                simp [hccn] at this
        | none =>
          have hs3 := resolve_s3 dyn (buildModuleIdMappings bundle) bundle h1
            (fun cc hcc => by rw [h2] at hcc; cases hcc)
          cases h3 : (extractChunks bundle).find? (fun c => c.name == some dyn) with
          | some cc =>
            refine ⟨cc.fileName, ?_, hwf cc (List.mem_of_find?_eq_some h3)⟩
            rw [hs3, h3]
          | none =>
            exfalso
            rcases hres with ⟨f, hlf, hfne⟩ | ⟨cc, hcc⟩ | ⟨cc, hccm, hccn⟩
            · rw [strat1_some_of _ _ _ hlf hfne] at h1; cases h1
            · rw [h2] at hcc; cases hcc
            · have := List.find?_eq_none.mp h3 cc hccm
              simp [hccn] at this
    obtain ⟨f, hrf, hfne⟩ := hmain
    exact ⟨f, hrf,
      mem_chunkFold_of_resolved _ bundle (extractChunks bundle) ([], []) c dyn f hc hd hrf hfne⟩
  · unfold analyzeDynamicImports
    rw [chunkFold_warn_len]
    simp

/-- Witness for C3: one chunk resolvable via its facade module id and
one unresolvable target, which logs exactly one warning. -/
theorem claim_C3_witness :
    (∃ f, resolveDynamicImport "src/a.ts"
        (buildModuleIdMappings
          [("entry.js", BundleItem.chunk ⟨"entry.js", some "e", true, some "entry",
              some "src/entry.ts", ["src/entry.ts"], ["src/a.ts", "missing"]⟩),
            ("a.js", BundleItem.chunk ⟨"a.js", some "a", false, some "a",
              some "src/a.ts", ["src/a.ts"], []⟩)])
        [("entry.js", BundleItem.chunk ⟨"entry.js", some "e", true, some "entry",
            some "src/entry.ts", ["src/entry.ts"], ["src/a.ts", "missing"]⟩),
          ("a.js", BundleItem.chunk ⟨"a.js", some "a", false, some "a",
            some "src/a.ts", ["src/a.ts"], []⟩)] = some f ∧
      f ∈ (analyzeDynamicImports
        [("entry.js", BundleItem.chunk ⟨"entry.js", some "e", true, some "entry",
            some "src/entry.ts", ["src/entry.ts"], ["src/a.ts", "missing"]⟩),
          ("a.js", BundleItem.chunk ⟨"a.js", some "a", false, some "a",
            some "src/a.ts", ["src/a.ts"], []⟩)]).1) ∧
    (analyzeDynamicImports
      [("entry.js", BundleItem.chunk ⟨"entry.js", some "e", true, some "entry",
          some "src/entry.ts", ["src/entry.ts"], ["src/a.ts", "missing"]⟩),
        ("a.js", BundleItem.chunk ⟨"a.js", some "a", false, some "a",
          some "src/a.ts", ["src/a.ts"], []⟩)]).2.length = 1 := by
  have h := claim_C3_dynamic_import_resolution
    [("entry.js", BundleItem.chunk ⟨"entry.js", some "e", true, some "entry",
        some "src/entry.ts", ["src/entry.ts"], ["src/a.ts", "missing"]⟩),
      ("a.js", BundleItem.chunk ⟨"a.js", some "a", false, some "a",
        some "src/a.ts", ["src/a.ts"], []⟩)]
    (by decide)
  refine ⟨h.1 ⟨"entry.js", some "e", true, some "entry", some "src/entry.ts",
      ["src/entry.ts"], ["src/a.ts", "missing"]⟩ (by decide) "src/a.ts" (by decide)
      (Or.inl ⟨"a.js", by decide, by decide⟩), ?_⟩
  rw [h.2]
  decide

theorem applyIntegrity_sets (map : List (String × String))
    (resolvePath : String → Option String) (cors : CorsVal) (el : RtElement)
    (u integ : String)
    (hu : u ≠ "") (hgi : getIntegrityForUrl map resolvePath (some u) = some integ)
    (hine : integ ≠ "") (hm : el.hasMethods = true)
    (hint : alookup el.attribs "integrity" = none)
    (hco : alookup el.attribs "crossorigin" = none) (hcors : cors.isTruthy = true) :
    applyIntegrity map resolvePath cors el (some u) =
      ⟨el.kind, aset (aset el.attribs "integrity" integ) "crossorigin" cors.attrValue,
        el.hasMethods⟩ := by
  unfold applyIntegrity
  simp only [if_neg hu, hgi, if_neg hine, hm, Bool.not_true, Bool.false_eq_true, if_false,
    hint, Option.isSome_none]
  have hco1 : alookup (aset el.attribs "integrity" integ) "crossorigin" = none := by
    rw [alookup_aset]
    simp [hco]
  simp [hco1, hcors]

/-- C8: the runtime installation function never propagates an exception
to its caller.  For every integrity map, options bag and environment,
including hostile ones where any setup primitive throws or DOM globals
are missing, installSriRuntime returns normally: its result is the
body's report when the body completes and the empty (nothing installed)
report when the top-level guard swallowed a body exception. -/
theorem claim_C8_install_never_throws (sri : List (String × String))
    (opts : Option RuntimeOpts) (env : RtEnv) :
    ∃ r : InstallReport, installSriRuntime sri opts env = r ∧
      (installBody sri opts env = .ok r ∨
        ∃ e, installBody sri opts env = .error e ∧
          r = ⟨[], CorsVal.corsFalse, false, []⟩) := by
  cases hb : installBody sri opts env with
  | ok r => exact ⟨r, by simp [installSriRuntime, hb], Or.inl rfl⟩
  | error e => exact ⟨⟨[], CorsVal.corsFalse, false, []⟩,
      by simp [installSriRuntime, hb], Or.inr ⟨e, rfl, rfl⟩⟩

/-- C9: when the options bag has no own crossorigin property the policy
defaults to anonymous, so every element to which the runtime adds an
integrity attribute and that carries no crossorigin attribute receives
crossorigin="anonymous" — both scripts (via their src) and eligible
links (stylesheet, modulepreload, or preload of script/style/font, via
their href); an explicit crossorigin: false disables the attribute
entirely. -/
theorem claim_C9_crossorigin_default (map : List (String × String))
    (resolvePath : String → Option String) (opts : Option RuntimeOpts)
    (el : RtElement) (u integ : String)
    (hno : opts = none ∨ opts = some ⟨none⟩) :
    corsOf opts = CorsVal.anonymous ∧
    (((el.kind = RtKind.script ∧ alookup el.attribs "src" = some u) ∨
      (el.kind = RtKind.link ∧
        (strLower ((alookup el.attribs "rel").getD "") = "stylesheet" ∨
          strLower ((alookup el.attribs "rel").getD "") = "modulepreload" ∨
          (strLower ((alookup el.attribs "rel").getD "") = "preload" ∧
            (strLower ((alookup el.attribs "as").getD "") = "script" ∨
              strLower ((alookup el.attribs "as").getD "") = "style" ∨
              strLower ((alookup el.attribs "as").getD "") = "font"))) ∧
        alookup el.attribs "href" = some u)) →
      u ≠ "" →
      getIntegrityForUrl map resolvePath (some u) = some integ → integ ≠ "" →
      el.hasMethods = true →
      alookup el.attribs "integrity" = none →
      alookup el.attribs "crossorigin" = none →
      alookup (maybeSetIntegrity map resolvePath (corsOf opts) el).attribs "integrity"
          = some integ ∧
      alookup (maybeSetIntegrity map resolvePath (corsOf opts) el).attribs "crossorigin"
          = some "anonymous") ∧
    (∀ el2 : RtElement,
      alookup (maybeSetIntegrity map resolvePath CorsVal.corsFalse el2).attribs "crossorigin"
        = alookup el2.attribs "crossorigin") := by
  have hcors : corsOf opts = CorsVal.anonymous := by
    rcases hno with rfl | rfl <;> simp [corsOf]
  refine ⟨hcors, ?_, ?_⟩
  · intro hsel hu hgi hine hm hint hco
    rw [hcors]
    rcases hsel with ⟨hk, hsrc⟩ | ⟨hk, hel, hhref⟩
    · unfold maybeSetIntegrity
      rw [hk, hsrc,
        applyIntegrity_sets map resolvePath CorsVal.anonymous el u integ hu hgi hine hm hint
          hco rfl]
      constructor
      · rw [alookup_aset]
        simp [alookup_aset]
      · rw [alookup_aset]
        simp [CorsVal.attrValue]
    · have hred : maybeSetIntegrity map resolvePath CorsVal.anonymous el =
          applyIntegrity map resolvePath CorsVal.anonymous el (alookup el.attribs "href") := by
        simp only [maybeSetIntegrity, hk]
        split
        · rfl
        · rename_i hneg
          refine (hneg ?_).elim
          simp only [Bool.or_eq_true, Bool.and_eq_true, decide_eq_true_eq]
          tauto
      rw [hred, hhref,
        applyIntegrity_sets map resolvePath CorsVal.anonymous el u integ hu hgi hine hm hint
          hco rfl]
      constructor
      · rw [alookup_aset]
        simp [alookup_aset]
      · rw [alookup_aset]
        simp [CorsVal.attrValue]
  · intro el2
    unfold maybeSetIntegrity applyIntegrity
    repeat' split
    all_goals simp_all [alookup_aset, CorsVal.isTruthy]
    all_goals split
    all_goals simp_all [alookup_aset]

/-- Witness for C9 on a concrete script element and a concrete
modulepreload link element, with a two-entry map and an identity
pathname resolver. -/
theorem claim_C9_witness :
    corsOf (some ⟨none⟩) = CorsVal.anonymous ∧
    alookup (maybeSetIntegrity [("/app.js", "sha384-T"), ("/chunk.js", "sha384-L")]
        (fun v => some v)
        CorsVal.anonymous ⟨RtKind.script, [("src", "/app.js")], true⟩).attribs "integrity"
      = some "sha384-T" ∧
    alookup (maybeSetIntegrity [("/app.js", "sha384-T"), ("/chunk.js", "sha384-L")]
        (fun v => some v)
        CorsVal.anonymous ⟨RtKind.script, [("src", "/app.js")], true⟩).attribs "crossorigin"
      = some "anonymous" ∧
    alookup (maybeSetIntegrity [("/app.js", "sha384-T"), ("/chunk.js", "sha384-L")]
        (fun v => some v)
        CorsVal.anonymous
        ⟨RtKind.link, [("rel", "modulepreload"), ("href", "/chunk.js")], true⟩).attribs
        "integrity"
      = some "sha384-L" ∧
    alookup (maybeSetIntegrity [("/app.js", "sha384-T"), ("/chunk.js", "sha384-L")]
        (fun v => some v)
        CorsVal.anonymous
        ⟨RtKind.link, [("rel", "modulepreload"), ("href", "/chunk.js")], true⟩).attribs
        "crossorigin"
      = some "anonymous" := by
  have hs := claim_C9_crossorigin_default [("/app.js", "sha384-T"), ("/chunk.js", "sha384-L")]
    (fun v => some v)
    (some ⟨none⟩) ⟨RtKind.script, [("src", "/app.js")], true⟩ "/app.js" "sha384-T"
    (Or.inr rfl)
  have hl := claim_C9_crossorigin_default [("/app.js", "sha384-T"), ("/chunk.js", "sha384-L")]
    (fun v => some v)
    (some ⟨none⟩) ⟨RtKind.link, [("rel", "modulepreload"), ("href", "/chunk.js")], true⟩
    "/chunk.js" "sha384-L" (Or.inr rfl)
  have hs2 := hs.2.1 (Or.inl ⟨rfl, rfl⟩) (by decide) (by decide) (by decide) rfl rfl rfl
  have hl2 := hl.2.1 (Or.inr ⟨rfl, Or.inr (Or.inl (by decide)), rfl⟩)
    (by decide) (by decide) (by decide) rfl rfl rfl
  have hc : corsOf (some (RuntimeOpts.mk none)) = CorsVal.anonymous := hs.1
  refine ⟨hc, ?_, ?_, ?_, ?_⟩
  · rw [← hc]
    exact hs2.1
  · rw [← hc]
    exact hs2.2
  · rw [← hc]
    exact hl2.1
  · rw [← hc]
    exact hl2.2

/-- Sanity evaluations of the URL and path primitives on concrete
inputs, matching the behavior documented in the source comments. -/
theorem sanity_url_and_path_primitives :
    isHttpUrl "https://example.com/foo" = true ∧
    isHttpUrl "//cdn.example.com/a.js" = true ∧
    isHttpUrl "HTTP://x/a.js" = true ∧
    isHttpUrl "/local/path.js" = false ∧
    normalizeBundlePath "/assets/main.js" = "assets/main.js" ∧
    strSplitSlash "a/b.js" = ["a", "b.js"] ∧
    strSplitSlash "a/" = ["a", ""] ∧
    findBundleItem [("assets/a.js", BundleItem.other)] "a.js" = some BundleItem.other := by
  decide

end Sri
